import Mathlib

/-!
Shallow embedding of the polling agent core in `ceilometer/agent/base.py`
(classes `Resources`, `PollingTask`, `AgentManager`), together with theorems
checking the natural-language specification against it.

External collaborators (the partition coordinator, discovery plugins,
pollsters' sampling code, the publish pipeline, `urlparse`,
`utils.hash_of_set`) live outside the translated file; they appear here as
parameters of the embedding or, where the spec pins down their contract,
as definitions marked `Modelled from the spec`.
-/

namespace Ceilometer

/-- Resources are opaque identifiers (strings) at this layer. -/
abbrev Resource := String

/-- A discovery plugin (`discovery_manager` extension).  `discover param`
returns `none` when the underlying plugin invocation raises (the code wraps
the call in `try/except`). -/
structure Discoverer where
  name : String
  group_id : Option String
  discover : Option String → Option (List Resource)

/-- The identity of a pollster extension: its name and its
`obj.default_discovery` attribute (`none`/empty string are falsy in the
source).  The sampling behaviour `get_samples` is supplied separately as a
per-cycle environment, since it is external plugin code. -/
structure Pollster where
  name : String
  default_discovery : Option String
  deriving DecidableEq, Repr

structure Source where
  name : String
  deriving DecidableEq, Repr

/-- A pipeline as consumed by the agent core: source, static resource list
and discovery URL list (the configuration layer that produces it is
external). -/
structure Pipeline where
  source : Source
  resources : List Resource
  discovery : List String
  deriving DecidableEq, Repr

/-- Python truthiness of an optional string (`None` and `''` are falsy). -/
def truthyOpt : Option String → Bool
  | none => false
  | some s => s != ""

/-- The immutable part of `AgentManager` that `Resources.get`,
`PollingTask.poll_and_publish` and `AgentManager.discover` consult: the
loaded discovery extensions, the external partition coordinator's
`extract_my_subset`, and the composed coordination group prefix string
(`self.group_prefix`). -/
structure AgentManager where
  discoverers : List Discoverer
  extract_my_subset : Option String → List Resource → List Resource
  group_pfx : String

/-- `AgentManager.construct_group_id`: `'%s-%s' % (group_prefix, gid)` when
`gid` is truthy, else `None`. -/
def AgentManager.construct_group_id (m : AgentManager) (gid : Option String) :
    Option String :=
  match gid with
  | none => none
  | some g => if g = "" then none else some (m.group_pfx ++ "-" ++ g)

/-- `AgentManager._discoverer`: first loaded discovery extension whose name
matches exactly. -/
def AgentManager.find_discoverer (m : AgentManager) (name : String) :
    Option Discoverer :=
  m.discoverers.find? (fun d => d.name == name)

/-- Helper for `parse_discoverer`: split a character list at the first
occurrence of `"://"`, returning the scheme part and the remainder. -/
def findSchemeSplit : List Char → Option (List Char × List Char)
  | [] => none
  | c :: rest =>
    if c = ':' ∧ rest.take 2 = ['/', '/'] then some ([], rest.drop 2)
    else
      match findSchemeSplit rest with
      | some (pre, post) => some (c :: pre, post)
      | none => none

/-- `AgentManager._parse_discoverer`: `urlparse` is an external library;
modelled for the URL shapes the agent uses.  A URL `scheme://rest` parses to
`(scheme, some rest)` (the source returns `s.netloc + s.path` as the
parameter when a scheme is present); a bare path parses to `(path, none)`. -/
def parse_discoverer (url : String) : String × Option String :=
  match findSchemeSplit url.data with
  | some (scheme, rest) => (String.mk scheme, some (String.mk rest))
  | none => (url, none)

/-- The per-cycle discovery cache: a mapping from URL to resolved resource
list (a Python dict, modelled as an association list with unique keys; the
code only inserts a URL it has just checked to be absent). -/
abbrev DiscoveryCache := List (String × List Resource)

def cacheLookup (c : DiscoveryCache) (url : String) : Option (List Resource) :=
  (c.find? (fun e => e.1 == url)).map (fun e => e.2)

def cacheInsert (c : DiscoveryCache) (url : String) (v : List Resource) :
    DiscoveryCache :=
  c ++ [(url, v)]

/-- The value a successful, uncached processing of `url` contributes and
caches: the discoverer is looked up by the parsed name, invoked on the
parsed parameter, and its output partitioned through the coordinator under
the group id derived from the discoverer's `group_id`.  `none` when the
discoverer is unknown or its invocation raises. -/
def partitionOf (m : AgentManager) (url : String) : Option (List Resource) :=
  let pr := parse_discoverer url
  match m.find_discoverer pr.1 with
  | none => none
  | some d =>
    match d.discover pr.2 with
    | none => none
    | some discovered =>
      some (m.extract_my_subset (m.construct_group_id d.group_id) discovered)

/-- Result of `AgentManager.discover`: accumulated resources, the cache
(present iff a cache was passed in), and the list of URLs for which the
underlying `discoverer.discover` call was actually invoked (whether or not
it raised). -/
structure DiscOut where
  resources : List Resource
  cache : Option DiscoveryCache
  calls : List String
  deriving DecidableEq, Repr

/-- The uncached branch of one iteration of `AgentManager.discover`'s loop:
parse the URL, look the discoverer up, invoke it, partition, extend the
result, and cache the partitioned list when a cache is in use.  A raising
discoverer contributes nothing and caches nothing; an unknown discoverer
name only logs. -/
def discoverFetch (m : AgentManager) (st : DiscOut) (url : String) : DiscOut :=
  let pr := parse_discoverer url
  match m.find_discoverer pr.1 with
  | none => st
  | some d =>
    let st1 : DiscOut := { st with calls := st.calls ++ [url] }
    match d.discover pr.2 with
    | none => st1
    | some discovered =>
      let partitioned :=
        m.extract_my_subset (m.construct_group_id d.group_id) discovered
      { st1 with
        resources := st1.resources ++ partitioned,
        cache := st1.cache.map (fun c => cacheInsert c url partitioned) }

/-- One iteration of `AgentManager.discover`'s loop: a cache hit extends the
result from the cache; otherwise the URL is fetched. -/
def discoverStep (m : AgentManager) (st : DiscOut) (url : String) : DiscOut :=
  match st.cache with
  | some c =>
    match cacheLookup c url with
    | some rs => { st with resources := st.resources ++ rs }
    | none => discoverFetch m st url
  | none => discoverFetch m st url

/-- `AgentManager.discover(discovery, discovery_cache)`. -/
def AgentManager.discover (m : AgentManager) (discovery : List String)
    (dc : Option DiscoveryCache) : DiscOut :=
  discovery.foldl (discoverStep m) ⟨[], dc, []⟩

/-- Modelled from the spec: `utils.hash_of_set` is outside `src/`; the spec
requires "a stable hash of the static resource set (order-independent hash,
since set membership — not order — defines group identity)".  Modelled as
the comma-join of the sorted deduplicated list, which is invariant under
permutation and duplication, like Python's `hash(frozenset(s))`. -/
def hash_of_set (l : List String) : String :=
  String.intercalate "," (l.dedup.insertionSort (fun a b => a ≤ b))

/-- The per-pairing resource holder (`class Resources`): static resources
and discovery URLs from the owning pipeline, plus the append-only
blacklist. -/
structure Resources where
  _resources : List Resource
  _discovery : List String
  blacklist : List Resource
  deriving DecidableEq, Repr

/-- A fresh `Resources(agent_manager)` as built by the defaultdict factory. -/
def Resources.empty : Resources := ⟨[], [], []⟩

/-- `Resources.setup`: overwrite static resources and discovery from the
pipeline (the blacklist is untouched). -/
def Resources.setup (r : Resources) (p : Pipeline) : Resources :=
  { r with _resources := p.resources, _discovery := p.discovery }

/-- `Resources.get`: dynamic resources from the discovery URLs (through the
shared cache) when `_discovery` is non-empty; static resources partitioned
through the coordinator under the group id derived from
`hash_of_set(_resources)` when `_resources` is non-empty; result is the
concatenation `static_resources + source_discovery`. -/
def Resources.get (r : Resources) (m : AgentManager)
    (dc : Option DiscoveryCache) : DiscOut :=
  let sd : DiscOut :=
    if r._discovery ≠ [] then m.discover r._discovery dc else ⟨[], dc, []⟩
  let static_resources : List Resource :=
    if r._resources ≠ [] then
      m.extract_my_subset
        (m.construct_group_id (some (hash_of_set r._resources)))
        r._resources
    else []
  ⟨static_resources ++ sd.resources, sd.cache, sd.calls⟩

/-- `Resources.key(source_name, pollster)`: `'%s-%s' % (source_name,
pollster.name)`. -/
def Resources.key (source_name : String) (pollster : Pollster) : String :=
  source_name ++ "-" ++ pollster.name

/-- Lookup in an association list (a Python dict keyed by strings). -/
def assocFind {α : Type} (l : List (String × α)) (k : String) : Option α :=
  (l.find? (fun e => e.1 == k)).map (fun e => e.2)

/-- Update-or-insert in an association list: the first entry with key `k` is
updated through `f`; when no entry exists, `(k, f dflt)` is appended (this
is exactly `defaultdict` access followed by mutation). -/
def assocUpd {α : Type} (k : String) (dflt : α) (f : α → α) :
    List (String × α) → List (String × α)
  | [] => [(k, f dflt)]
  | (k', v) :: rest =>
    if k' = k then (k', f v) :: rest else (k', v) :: assocUpd k dflt f rest

/-- Reading `self.resources[key]` on the defaultdict: the stored entry, or a
fresh `Resources` when the key is absent. -/
def resOf (l : List (String × Resources)) (k : String) : Resources :=
  (assocFind l k).getD Resources.empty

/-- `PollingTask` state: `pollster_matches` (source name to the set of
pollsters registered under it), `publishers` (the source names for which a
`PublishContext` exists — the context object itself is external), and
`resources` (the defaultdict from pairing key to `Resources`). -/
structure PollingTask where
  pollster_matches : List (String × List Pollster)
  publishers : List String
  resources : List (String × Resources)
  deriving Repr

def PollingTask.empty : PollingTask := ⟨[], [], []⟩

/-- `PollingTask.add(pollster, pipeline)`: lazily create the publish context
for the source, register the pollster in the source's set (a Python `set`:
adding an already-present pollster is a no-op), and run `setup(pipeline)` on
the pairing's `Resources` entry (created on first access). -/
def PollingTask.add (t : PollingTask) (pollster : Pollster)
    (pipeline : Pipeline) : PollingTask :=
  let src := pipeline.source.name
  let pubs := if t.publishers.contains src then t.publishers
              else t.publishers ++ [src]
  let pm := assocUpd src []
    (fun ps => if pollster ∈ ps then ps else ps ++ [pollster])
    t.pollster_matches
  let key := Resources.key src pollster
  { pollster_matches := pm,
    publishers := pubs,
    resources := assocUpd key Resources.empty
      (fun r => r.setup pipeline) t.resources }

/-- Observable actions of one polling cycle: a `discoverer.discover`
invocation for a URL, a `pollster.obj.get_samples` invocation with its
target list, a `publisher(samples)` call, and the informational skip when a
pollster has no targets. -/
inductive Event where
  | discoverCall (url : String)
  | getSamplesCall (source pname : String) (targets : List Resource)
  | published (source pname : String) (samples : List Resource)
  | skipped (source pname : String)
  deriving DecidableEq, Repr

/-- Outcome of one `pollster.obj.get_samples` call: the eagerly collected
sample list, a raised `PollsterPermanentError` carrying `fail_res`, or any
other raised exception. -/
inductive SampleResult where
  | ok (samples : List Resource)
  | permanentError (fail_res : Resource)
  | otherError
  deriving DecidableEq, Repr

/-- The external sampling behaviour for one cycle: what
`get_samples(manager, cache, resources)` does, keyed by pollster name and
the resources passed.  Different cycles may see different behaviours. -/
abbrev PollEnv := String → List Resource → SampleResult

/-- The state threaded through one `poll_and_publish` invocation: the task's
`resources` map (blacklists may grow), the per-cycle `discovery_cache`, and
the accumulated observable events. -/
structure CycleState where
  resources : List (String × Resources)
  dcache : DiscoveryCache
  events : List Event

/-- The URL list the pollster's own `default_discovery` contributes:
`[default_discovery]` when truthy, nothing otherwise (the source guards the
`discover` call with `if pollster.obj.default_discovery`). -/
def defaultDiscoveryList (p : Pollster) : List String :=
  match p.default_discovery with
  | some u => if u = "" then [] else [u]
  | none => []

/-- Lines 132-135: `pollster_resources`, via the pollster's default
discovery and the shared cache. -/
def pollsterDefaultRes (m : AgentManager) (p : Pollster) (c : DiscoveryCache) :
    DiscOut :=
  m.discover (defaultDiscoveryList p) (some c)

/-- Lines 136-138: `source_resources`, via the pairing's `Resources.get` and
the shared cache. -/
def sourceRes (m : AgentManager) (resmap : List (String × Resources))
    (src : String) (p : Pollster) (c : DiscoveryCache) : DiscOut :=
  (resOf resmap (Resources.key src p)).get m (some c)

/-- Lines 139-140: `candidate_res = (source_resources or
pollster_resources)` — Python `or` on lists selects the first operand when
it is non-empty.  The two resolutions happen in source order: the default
discovery first (updating the cache), then the pairing's `get` on the
updated cache. -/
def candidatesOf (m : AgentManager) (resmap : List (String × Resources))
    (src : String) (p : Pollster) (c : DiscoveryCache) : List Resource :=
  let d1 := pollsterDefaultRes m p c
  let d2 := sourceRes m resmap src p (d1.cache.getD c)
  if d2.resources = [] then d1.resources else d2.resources

/-- Lines 142-145: `polling_resources`, the candidates minus the pairing's
blacklist. -/
def targetsOf (m : AgentManager) (resmap : List (String × Resources))
    (src : String) (p : Pollster) (c : DiscoveryCache) : List Resource :=
  (candidatesOf m resmap src p c).filter
    (fun x => decide (x ∉ (resOf resmap (Resources.key src p)).blacklist))

/-- The body of `poll_and_publish`'s inner loop for one pollster of one
source: resolve the default-discovery and source resources (threading the
per-cycle cache), filter by the pairing's blacklist, then either skip, or
call `get_samples` and publish / blacklist / log according to its outcome. -/
def pollOne (m : AgentManager) (env : PollEnv) (src : String) (p : Pollster)
    (st : CycleState) : CycleState :=
  let d1 := pollsterDefaultRes m p st.dcache
  let c1 := d1.cache.getD st.dcache
  let d2 := sourceRes m st.resources src p c1
  let c2 := d2.cache.getD c1
  let key := Resources.key src p
  let polling_resources := targetsOf m st.resources src p st.dcache
  let ev0 := st.events ++ d1.calls.map Event.discoverCall
      ++ d2.calls.map Event.discoverCall
  if polling_resources = [] then
    { resources := st.resources, dcache := c2,
      events := ev0 ++ [Event.skipped src p.name] }
  else
    match env p.name polling_resources with
    | SampleResult.ok samples =>
      { resources := st.resources, dcache := c2,
        events := ev0 ++ [Event.getSamplesCall src p.name polling_resources,
                          Event.published src p.name samples] }
    | SampleResult.permanentError fr =>
      { resources := assocUpd key Resources.empty
          (fun r => { r with blacklist := r.blacklist ++ [fr] }) st.resources,
        dcache := c2,
        events := ev0 ++ [Event.getSamplesCall src p.name polling_resources] }
    | SampleResult.otherError =>
      { resources := st.resources, dcache := c2,
        events := ev0 ++ [Event.getSamplesCall src p.name polling_resources] }

/-- The per-source loop of `poll_and_publish`: inside the source's publish
context, poll each registered pollster. -/
def pollSource (m : AgentManager) (env : PollEnv)
    (st : CycleState) (entry : String × List Pollster) : CycleState :=
  entry.2.foldl (fun s p => pollOne m env entry.1 p s) st

/-- One full `poll_and_publish` invocation as a state transformer: fresh
`cache`/`discovery_cache`, then the nested loops over sources and
pollsters. -/
def poll_cycle (t : PollingTask) (m : AgentManager) (env : PollEnv) :
    CycleState :=
  t.pollster_matches.foldl (pollSource m env) ⟨t.resources, [], []⟩

/-- `PollingTask.poll_and_publish()`: the task keeps its updated `resources`
map; the cycle-local caches are discarded; the events are the cycle's
observable actions. -/
def PollingTask.poll_and_publish (t : PollingTask) (m : AgentManager)
    (env : PollEnv) : PollingTask × List Event :=
  let st := poll_cycle t m env
  ({ t with resources := st.resources }, st.events)

/-- Repeated timer ticks on one task: each cycle runs with that cycle's
external sampling behaviour; events are concatenated in order. -/
def runCycles (t : PollingTask) (m : AgentManager) :
    List PollEnv → PollingTask × List Event
  | [] => (t, [])
  | e :: rest =>
    let r1 := t.poll_and_publish m e
    let r2 := runCycles r1.1 m rest
    (r2.1, r1.2 ++ r2.2)

/-- Outcome of `AgentManager.__init__` for the parts the spec constrains:
either the `PollsterListForbidden` configuration error, or a successfully
initialised pollster extension list. -/
inductive InitOutcome where
  | forbidden
  | ok (extensions : List Pollster)
  deriving Repr

/-- `AgentManager.__init__` (lines 175-200): raise `PollsterListForbidden`
when a non-empty `pollster_list` is combined with a truthy
`cfg.CONF.coordination.backend_url`; otherwise load the pollster extensions
of every namespace (stevedore and `fnmatch` are external and passed as
`load_ext` / `match_pat`), filtering by the name patterns when a
`pollster_list` was given. -/
def agent_manager_init (backend_url : Option String)
    (namespaces : List String) (pollster_list : List String)
    (load_ext : String → List Pollster)
    (match_pat : String → String → Bool) : InitOutcome :=
  if pollster_list ≠ [] ∧ truthyOpt backend_url then InitOutcome.forbidden
  else
    InitOutcome.ok
      ((namespaces.map (fun ns =>
          let exts := load_ext ns
          if pollster_list ≠ [] then
            exts.filter (fun p => pollster_list.any (fun pat => match_pat p.name pat))
          else exts)).flatten)

/-- Number of occurrences of a URL in a list of URLs. -/
def countUrl (url : String) : List String → Nat
  | [] => 0
  | u :: rest => (if u = url then 1 else 0) + countUrl url rest

/-- Number of `discoverCall url` events in an event list: how many times the
underlying discoverer was invoked for `url`. -/
def countUrlCalls (url : String) : List Event → Nat
  | [] => 0
  | Event.discoverCall u :: rest =>
    (if u = url then 1 else 0) + countUrlCalls url rest
  | _ :: rest => countUrlCalls url rest

/-- A cache is well-formed when every stored entry is the partitioned list
its URL's successful processing produces. -/
def cacheWF (m : AgentManager) (c : DiscoveryCache) : Prop :=
  ∀ url w, cacheLookup c url = some w → partitionOf m url = some w

/-- The per-cycle invariant tracked for one URL whose uncached processing
succeeds with value `v`: any cached value for it is `v`, and the discoverer
has been invoked for it exactly once if it is currently cached, never
otherwise. -/
def InvU (url : String) (v : List Resource) (st : CycleState) : Prop :=
  (∀ w, cacheLookup st.dcache url = some w → w = v)
  ∧ countUrlCalls url st.events
      = (if (cacheLookup st.dcache url).isSome then 1 else 0)

/-- A URL is referenced by a task when some registered pairing pulls it in,
either as the pollster's default discovery or through the pairing's
discovery URL list. -/
def referencesURL (t : PollingTask) (url : String) : Prop :=
  ∃ src ps, (src, ps) ∈ t.pollster_matches ∧ ∃ p, p ∈ ps ∧
    (url ∈ defaultDiscoveryList p
     ∨ url ∈ (resOf t.resources (Resources.key src p))._discovery)

/-- The invariant carried through a cycle for claim C1: the resource is in
the pairing's blacklist, and no `get_samples` call so far has targeted
it. -/
def noBadInv (src0 pname : String) (r : Resource) (st : CycleState) : Prop :=
  r ∈ (resOf st.resources (src0 ++ "-" ++ pname)).blacklist
  ∧ ∀ ts, Event.getSamplesCall src0 pname ts ∈ st.events → r ∉ ts

/-- Blacklist growth, as a transition relation between cycle states. -/
def blGrow (st st' : CycleState) : Prop :=
  ∀ k, ∃ tl, (resOf st'.resources k).blacklist
      = (resOf st.resources k).blacklist ++ tl

/-- The per-pairing mark of being processed in a cycle: a skip notice or a
`get_samples` call exists for it. -/
def processedP (src pname : String) (st : CycleState) : Prop :=
  Event.skipped src pname ∈ st.events
  ∨ ∃ ts, Event.getSamplesCall src pname ts ∈ st.events

/-- Spec-side definition (refinement reference): the static part of
`Resources.get` as the spec words it — the static resources partitioned
through the coordinator keyed by a group id derived from an
order-independent hash of the static resource list; empty when there are no
static resources. -/
def staticPart (m : AgentManager) (r : Resources) : List Resource :=
  if r._resources = [] then []
  else m.extract_my_subset
    (m.construct_group_id (some (hash_of_set r._resources))) r._resources

/-- Spec-side definition (refinement reference): the discovered part of
`Resources.get` — the resources discovered from the configured discovery
URLs. -/
def discoveredPart (m : AgentManager) (r : Resources) (c : DiscoveryCache) :
    List Resource :=
  if r._discovery = [] then []
  else (m.discover r._discovery (some c)).resources

/-- Spec-side definition (refinement reference): `candidates :=
sourceResources` if non-empty, else `pollsterDefaultResources`. -/
def spec_candidates (sourceResources pollsterDefaultResources : List Resource) :
    List Resource :=
  if sourceResources ≠ [] then sourceResources else pollsterDefaultResources

/-- A task built by a sequence of `add` registrations from the empty task. -/
def buildTask (l : List (Pollster × Pipeline)) : PollingTask :=
  l.foldl (fun t pp => t.add pp.1 pp.2) PollingTask.empty

/-- Concrete scenario objects used in witnesses and counterexamples: a
coordinator that keeps every resource (a single uncoordinated agent). -/
def idCoord : Option String → List Resource → List Resource := fun _ l => l

def pW : Pollster := ⟨"cpu", none⟩

/-- A discoverer whose invocation always raises. -/
def mFail : AgentManager := ⟨[⟨"d", none, fun _ => none⟩], idCoord, "central"⟩

/-- A discoverer whose invocation always succeeds with `["r1"]`. -/
def mOkDisc : AgentManager :=
  ⟨[⟨"d", some "g", fun _ => some ["r1"]⟩], idCoord, "central"⟩

def mNone : AgentManager := ⟨[], idCoord, "central"⟩

/-- Two pairings (sources `s1`, `s2`, one pollster) that reference the same
discovery URL. -/
def tTwo : PollingTask :=
  (PollingTask.empty.add pW ⟨⟨"s1"⟩, [], ["d://x"]⟩).add pW
    ⟨⟨"s2"⟩, [], ["d://x"]⟩

def envErr : PollEnv := fun _ _ => SampleResult.otherError

def envOk : PollEnv := fun _ _ => SampleResult.ok ["samp"]

def envPerm : PollEnv := fun _ _ => SampleResult.permanentError "r1"

def pKeyA : Pollster := ⟨"c", none⟩

def pKeyB : Pollster := ⟨"b-c", none⟩

/-- Registrations of the distinct combinations `("a-b", "c")` and
`("a", "b-c")`, whose joined keys collide. -/
def tKey : PollingTask :=
  (PollingTask.empty.add pKeyA ⟨⟨"a-b"⟩, ["r1"], []⟩).add pKeyB
    ⟨⟨"a"⟩, ["r2"], []⟩

/-- A task with one pairing whose blacklist already holds `r1`. -/
def tBl : PollingTask :=
  ⟨[("s", [pW])], ["s"], [("s-cpu", ⟨["r1", "r2"], [], ["r1"]⟩)]⟩

/-- A cycle state whose only candidate resource is blacklisted. -/
def stBlk : CycleState := ⟨[("s-cpu", ⟨["r1"], [], ["r1"]⟩)], [], []⟩

/-- A cycle state with one static resource and an empty blacklist. -/
def stC7 : CycleState := ⟨[("s-cpu", ⟨["r1"], [], []⟩)], [], []⟩

theorem countUrl_append (url : String) (a b : List String) :
    countUrl url (a ++ b) = countUrl url a + countUrl url b := by
  induction a with
  | nil => simp [countUrl]
  | cons x xs ih => simp [countUrl, ih]; omega

theorem countUrlCalls_append (url : String) (a b : List Event) :
    countUrlCalls url (a ++ b) = countUrlCalls url a + countUrlCalls url b := by
  induction a with
  | nil => simp [countUrlCalls]
  | cons x xs ih => cases x <;> simp [countUrlCalls, ih] <;> omega

theorem countUrlCalls_map (url : String) (l : List String) :
    countUrlCalls url (l.map Event.discoverCall) = countUrl url l := by
  induction l with
  | nil => simp [countUrlCalls, countUrl]
  | cons x xs ih => simp [countUrlCalls, countUrl, ih]

theorem assocFind_cons {α : Type} (k1 : String) (v : α)
    (tl : List (String × α)) (k : String) :
    assocFind ((k1, v) :: tl) k = if k1 = k then some v else assocFind tl k := by
  by_cases h : k1 = k <;> simp [assocFind, List.find?_cons, h]

theorem assocFind_upd_self {α : Type} (k : String) (d : α) (f : α → α)
    (l : List (String × α)) :
    assocFind (assocUpd k d f l) k = some (f ((assocFind l k).getD d)) := by
  induction l with
  | nil => simp [assocUpd, assocFind_cons, assocFind]
  | cons hd tl ih =>
    obtain ⟨k1, v⟩ := hd
    by_cases h1 : k1 = k
    · subst h1; simp [assocUpd, assocFind_cons]
    · simp [assocUpd, assocFind_cons, h1, ih]

theorem assocFind_upd_ne {α : Type} (k k' : String) (d : α) (f : α → α)
    (l : List (String × α)) (h : k' ≠ k) :
    assocFind (assocUpd k d f l) k' = assocFind l k' := by
  induction l with
  | nil => simp [assocUpd, assocFind_cons, assocFind, Ne.symm h]
  | cons hd tl ih =>
    obtain ⟨k1, v⟩ := hd
    by_cases h1 : k1 = k
    · subst h1; simp [assocUpd, assocFind_cons, Ne.symm h]
    · simp [assocUpd, assocFind_cons, h1, ih]

theorem resOf_upd_self (k : String) (f : Resources → Resources)
    (l : List (String × Resources)) :
    resOf (assocUpd k Resources.empty f l) k = f (resOf l k) := by
  simp [resOf, assocFind_upd_self]

theorem resOf_upd_ne (k k' : String) (f : Resources → Resources)
    (l : List (String × Resources)) (h : k' ≠ k) :
    resOf (assocUpd k Resources.empty f l) k' = resOf l k' := by
  simp [resOf, assocFind_upd_ne _ _ _ _ _ h]

theorem cacheLookup_cons (k1 : String) (v : List Resource)
    (tl : DiscoveryCache) (k : String) :
    cacheLookup ((k1, v) :: tl) k
      = if k1 = k then some v else cacheLookup tl k := by
  by_cases h : k1 = k <;> simp [cacheLookup, List.find?_cons, h]

theorem cacheLookup_insert_ne (c : DiscoveryCache) (u url : String)
    (v : List Resource) (h : u ≠ url) :
    cacheLookup (cacheInsert c u v) url = cacheLookup c url := by
  induction c with
  | nil => simp [cacheInsert, cacheLookup_cons, cacheLookup, h]
  | cons hd tl ih =>
    obtain ⟨k1, w⟩ := hd
    by_cases h1 : k1 = url <;>
      simp [cacheInsert, cacheLookup_cons, h1] at ih ⊢ <;> exact ih

theorem cacheLookup_insert_self (c : DiscoveryCache) (u : String)
    (v : List Resource) (h : cacheLookup c u = none) :
    cacheLookup (cacheInsert c u v) u = some v := by
  induction c with
  | nil => simp [cacheInsert, cacheLookup_cons]
  | cons hd tl ih =>
    obtain ⟨k1, w⟩ := hd
    rw [cacheLookup_cons] at h
    by_cases h1 : k1 = u
    · simp [h1] at h
    · simp [h1] at h
      simp [cacheInsert, cacheLookup_cons, h1] at ih ⊢
      exact ih h

theorem cacheLookup_insert_cases (c : DiscoveryCache) (u url : String)
    (v w : List Resource)
    (h : cacheLookup (cacheInsert c u v) url = some w) :
    cacheLookup c url = some w ∨ (url = u ∧ w = v) := by
  by_cases h1 : u = url
  · subst h1
    cases hc : cacheLookup c u with
    | some w' =>
      left
      rw [← h]
      clear h
      induction c with
      | nil => simp [cacheLookup] at hc
      | cons hd tl ih =>
        obtain ⟨k1, x⟩ := hd
        rw [cacheLookup_cons] at hc
        by_cases h2 : k1 = u
        · simp [h2] at hc
          simp [cacheInsert, cacheLookup_cons, h2, hc]
        · simp [h2] at hc
          simp [cacheInsert, cacheLookup_cons, h2] at ih ⊢
          exact ih hc
    | none =>
      right
      rw [cacheLookup_insert_self c u v hc] at h
      exact ⟨rfl, (Option.some_inj.mp h).symm⟩
  · left; rw [← h, cacheLookup_insert_ne c u url v h1]

theorem foldl_preserve {σ α : Type} {f : σ → α → σ} {P : σ → Prop}
    (h : ∀ s a, P s → P (f s a)) :
    ∀ (l : List α) (s : σ), P s → P (l.foldl f s)
  | [], _, hs => hs
  | a :: l, s, hs => foldl_preserve h l (f s a) (h s a hs)

theorem foldl_chain {σ α : Type} {f : σ → α → σ} {R : σ → σ → Prop}
    (htrans : ∀ a b c, R a b → R b c → R a c)
    (hrefl : ∀ s, R s s)
    (hstep : ∀ s a, R s (f s a)) :
    ∀ (l : List α) (s : σ), R s (l.foldl f s)
  | [], s => hrefl s
  | a :: l, s =>
    htrans _ _ _ (hstep s a) (foldl_chain htrans hrefl hstep l (f s a))

theorem foldl_reach {σ α : Type} {f : σ → α → σ} {P : σ → Prop}
    (hpres : ∀ s a, P s → P (f s a))
    (a : α) (hstep : ∀ s, P (f s a)) :
    ∀ (l : List α) (s : σ), a ∈ l → P (l.foldl f s) := by
  intro l
  induction l with
  | nil => intro s hmem; cases hmem
  | cons b l ih =>
    intro s hmem
    rcases List.mem_cons.mp hmem with h1 | h1
    · subst h1
      exact foldl_preserve hpres l (f s a) (hstep s)
    · exact ih (f s b) h1

theorem partitionOf_elim (m : AgentManager) (url : String) (v : List Resource)
    (h : partitionOf m url = some v) :
    ∃ d, m.find_discoverer (parse_discoverer url).1 = some d
      ∧ ∃ disc, d.discover (parse_discoverer url).2 = some disc
      ∧ v = m.extract_my_subset (m.construct_group_id d.group_id) disc := by
  rcases hfind : m.find_discoverer (parse_discoverer url).1 with _ | d
  · simp [partitionOf, hfind] at h
  · rcases hdisc : d.discover (parse_discoverer url).2 with _ | disc
    · simp [partitionOf, hfind, hdisc] at h
    · refine ⟨d, rfl, disc, hdisc, ?_⟩
      simp [partitionOf, hfind, hdisc] at h
      exact h.symm

/-- One `discover` loop iteration, seen from a URL `url` whose uncached
processing succeeds with value `v`: the cache stays present, the call
counter for `url` grows exactly when this iteration fetches `url`, `url`
is cached afterwards iff it was cached before or is this iteration's URL,
and a cached value for `url` is either the old one or `v`. -/
theorem discoverStep_good (m : AgentManager) (url : String) (v : List Resource)
    (hgood : partitionOf m url = some v)
    (st : DiscOut) (c : DiscoveryCache) (hc : st.cache = some c)
    (url' : String) :
    ∃ c₁, (discoverStep m st url').cache = some c₁
      ∧ countUrl url (discoverStep m st url').calls
          = countUrl url st.calls
            + (if url' = url ∧ (cacheLookup c url).isNone then 1 else 0)
      ∧ ((cacheLookup c₁ url).isSome
          ↔ ((cacheLookup c url).isSome ∨ url' = url))
      ∧ (∀ w, cacheLookup c₁ url = some w → cacheLookup c url = some w ∨ w = v) := by
  by_cases heq : url' = url
  · subst heq
    rcases hlook : cacheLookup c url' with _ | rs
    · -- uncached: fetch happens and succeeds
      obtain ⟨d, hfind, disc, hdisc, hv⟩ := partitionOf_elim m url' v hgood
      refine ⟨cacheInsert c url' v, ?_, ?_, ?_, ?_⟩
      · simp [discoverStep, hc, hlook, discoverFetch, hfind, hdisc, ← hv]
      · simp [discoverStep, hc, hlook, discoverFetch, hfind, hdisc,
              countUrl_append, countUrl, hlook]
      · simp [cacheLookup_insert_self c url' v hlook, hlook]
      · intro w hw
        rw [cacheLookup_insert_self c url' v hlook] at hw
        right; exact (Option.some_inj.mp hw).symm
    · -- cached: served from the cache, no call
      refine ⟨c, ?_, ?_, ?_, ?_⟩
      · simp [discoverStep, hc, hlook]
      · simp [discoverStep, hc, hlook]
      · simp [hlook]
      · intro w hw; rw [hlook] at hw; exact Or.inl hw
  · -- a different URL: the counter and the lookup of `url` are untouched
    rcases hlook : cacheLookup c url' with _ | rs
    case neg.some =>
      refine ⟨c, ?_, ?_, by simp [heq], fun w hw => Or.inl hw⟩
      · simp [discoverStep, hc, hlook]
      · simp [discoverStep, hc, hlook, heq]
    · rcases hfind : m.find_discoverer (parse_discoverer url').1 with _ | d
      · exact ⟨c, by simp [discoverStep, hc, hlook, discoverFetch, hfind],
          by simp [discoverStep, hc, hlook, discoverFetch, hfind, heq],
          by simp [heq], fun w hw => Or.inl hw⟩
      · rcases hdisc : d.discover (parse_discoverer url').2 with _ | disc
        · exact ⟨c, by simp [discoverStep, hc, hlook, discoverFetch, hfind, hdisc],
            by simp [discoverStep, hc, hlook, discoverFetch, hfind, hdisc,
                     countUrl_append, countUrl, heq],
            by simp [heq], fun w hw => Or.inl hw⟩
        · refine ⟨cacheInsert c url'
              (m.extract_my_subset (m.construct_group_id d.group_id) disc),
            by simp [discoverStep, hc, hlook, discoverFetch, hfind, hdisc],
            by simp [discoverStep, hc, hlook, discoverFetch, hfind, hdisc,
                     countUrl_append, countUrl, heq],
            ?_, ?_⟩
          · rw [cacheLookup_insert_ne c url' url _ heq]; simp [heq]
          · intro w hw
            rw [cacheLookup_insert_ne c url' url _ heq] at hw
            exact Or.inl hw

/-- The `discover` loop over a URL list, for a URL whose uncached processing
succeeds: exactly one call when it is referenced and not yet cached, none
otherwise; it is cached afterwards iff cached before or referenced; cached
values for it are the old one or `v`. -/
theorem discover_loop_good (m : AgentManager) (url : String) (v : List Resource)
    (hgood : partitionOf m url = some v) :
    ∀ (urls : List String) (st : DiscOut) (c : DiscoveryCache),
      st.cache = some c →
      ∃ c', (urls.foldl (discoverStep m) st).cache = some c'
        ∧ countUrl url (urls.foldl (discoverStep m) st).calls
            = countUrl url st.calls
              + (if (cacheLookup c url).isSome then 0
                 else if url ∈ urls then 1 else 0)
        ∧ ((cacheLookup c' url).isSome
            ↔ ((cacheLookup c url).isSome ∨ url ∈ urls))
        ∧ (∀ w, cacheLookup c' url = some w
            → cacheLookup c url = some w ∨ w = v) := by
  intro urls
  induction urls with
  | nil =>
    intro st c hc
    exact ⟨c, hc, by simp, by simp, fun w hw => Or.inl hw⟩
  | cons url' rest ih =>
    intro st c hc
    obtain ⟨c₁, hc₁, hcount₁, hiff₁, hval₁⟩ :=
      discoverStep_good m url v hgood st c hc url'
    obtain ⟨c', hc', hcount', hiff', hval'⟩ :=
      ih (discoverStep m st url') c₁ hc₁
    refine ⟨c', by simpa using hc', ?_, ?_, ?_⟩
    · rw [List.foldl_cons]
      rw [hcount', hcount₁]
      by_cases hcu : (cacheLookup c url).isSome
      · have h1 : (cacheLookup c₁ url).isSome := hiff₁.mpr (Or.inl hcu)
        have h2 : ¬(cacheLookup c url).isNone := by
          cases hx : cacheLookup c url <;> simp [hx] at hcu ⊢
        simp [hcu, h1, h2]
      · by_cases heq : url' = url
        · have h1 : (cacheLookup c₁ url).isSome := hiff₁.mpr (Or.inr heq)
          have h0 : (cacheLookup c url).isNone := by
            cases hx : cacheLookup c url <;> simp [hx] at hcu ⊢
          simp [hcu, h1, heq, h0]
        · have h1 : ¬(cacheLookup c₁ url).isSome := by
            intro hx
            rcases hiff₁.mp hx with h | h
            · exact hcu h
            · exact heq h
          have h0 : (cacheLookup c url).isNone := by
            cases hx : cacheLookup c url <;> simp [hx] at hcu ⊢
          simp [hcu, h1, heq, h0, List.mem_cons]
          by_cases hmem : url ∈ rest <;> simp [hmem, Ne.symm heq]
    · rw [hiff', hiff₁]
      constructor
      · rintro ((h | h) | h)
        · exact Or.inl h
        · exact Or.inr (List.mem_cons.mpr (Or.inl h.symm))
        · exact Or.inr (List.mem_cons.mpr (Or.inr h))
      · rintro (h | h)
        · exact Or.inl (Or.inl h)
        · rcases List.mem_cons.mp h with h | h
          · exact Or.inl (Or.inr h.symm)
          · exact Or.inr h
    · intro w hw
      rcases hval' w hw with h | h
      · rcases hval₁ w h with h2 | h2
        · exact Or.inl h2
        · exact Or.inr h2
      · exact Or.inr h

/-- `discover` on a fresh accumulator, for a URL whose uncached processing
succeeds. -/
theorem discover_good (m : AgentManager) (url : String) (v : List Resource)
    (hgood : partitionOf m url = some v) (urls : List String)
    (c : DiscoveryCache) :
    ∃ c', (m.discover urls (some c)).cache = some c'
      ∧ countUrl url (m.discover urls (some c)).calls
          = (if (cacheLookup c url).isSome then 0
             else if url ∈ urls then 1 else 0)
      ∧ ((cacheLookup c' url).isSome
          ↔ ((cacheLookup c url).isSome ∨ url ∈ urls))
      ∧ (∀ w, cacheLookup c' url = some w
          → cacheLookup c url = some w ∨ w = v) := by
  obtain ⟨c', h1, h2, h3, h4⟩ :=
    discover_loop_good m url v hgood urls ⟨[], some c, []⟩ c rfl
  exact ⟨c', h1, by simpa [countUrl] using h2, h3, h4⟩

theorem discoverStep_WF (m : AgentManager) (st : DiscOut) (c : DiscoveryCache)
    (hc : st.cache = some c) (hwf : cacheWF m c) (url' : String) :
    ∃ c₁, (discoverStep m st url').cache = some c₁ ∧ cacheWF m c₁ := by
  rcases hlook : cacheLookup c url' with _ | rs
  · rcases hfind : m.find_discoverer (parse_discoverer url').1 with _ | d
    · exact ⟨c, by simp [discoverStep, hc, hlook, discoverFetch, hfind], hwf⟩
    · rcases hdisc : d.discover (parse_discoverer url').2 with _ | disc
      · exact ⟨c, by simp [discoverStep, hc, hlook, discoverFetch, hfind, hdisc],
          hwf⟩
      · refine ⟨cacheInsert c url'
            (m.extract_my_subset (m.construct_group_id d.group_id) disc),
          by simp [discoverStep, hc, hlook, discoverFetch, hfind, hdisc], ?_⟩
        intro u w hw
        rcases cacheLookup_insert_cases _ _ _ _ _ hw with h | ⟨h1, h2⟩
        · exact hwf u w h
        · subst h1; subst h2
          simp [partitionOf, hfind, hdisc]
  · exact ⟨c, by simp [discoverStep, hc, hlook], hwf⟩

theorem discover_loop_WF (m : AgentManager) :
    ∀ (urls : List String) (st : DiscOut) (c : DiscoveryCache),
      st.cache = some c → cacheWF m c →
      ∃ c', (urls.foldl (discoverStep m) st).cache = some c' ∧ cacheWF m c' := by
  intro urls
  induction urls with
  | nil => intro st c hc hwf; exact ⟨c, hc, hwf⟩
  | cons url' rest ih =>
    intro st c hc hwf
    obtain ⟨c₁, hc₁, hwf₁⟩ := discoverStep_WF m st c hc hwf url'
    obtain ⟨c', hc', hwf'⟩ := ih (discoverStep m st url') c₁ hc₁ hwf₁
    exact ⟨c', by simpa using hc', hwf'⟩

theorem discover_WF (m : AgentManager) (urls : List String) (c : DiscoveryCache)
    (hwf : cacheWF m c) :
    ∃ c', (m.discover urls (some c)).cache = some c' ∧ cacheWF m c' :=
  discover_loop_WF m urls ⟨[], some c, []⟩ c rfl hwf

theorem get_good (m : AgentManager) (r : Resources) (url : String)
    (v : List Resource) (hgood : partitionOf m url = some v)
    (c : DiscoveryCache) :
    ∃ c', (r.get m (some c)).cache = some c'
      ∧ countUrl url (r.get m (some c)).calls
          = (if (cacheLookup c url).isSome then 0
             else if url ∈ r._discovery then 1 else 0)
      ∧ ((cacheLookup c' url).isSome
          ↔ ((cacheLookup c url).isSome ∨ url ∈ r._discovery))
      ∧ (∀ w, cacheLookup c' url = some w
          → cacheLookup c url = some w ∨ w = v) := by
  by_cases hd : r._discovery = []
  · refine ⟨c, by simp [Resources.get, hd], ?_, ?_, fun w hw => Or.inl hw⟩
    · simp [Resources.get, hd, countUrl]
    · simp [hd]
  · obtain ⟨c', h1, h2, h3, h4⟩ := discover_good m url v hgood r._discovery c
    exact ⟨c', by simp [Resources.get, hd, h1],
      by simp [Resources.get, hd, h2], h3, h4⟩

theorem get_WF (m : AgentManager) (r : Resources) (c : DiscoveryCache)
    (hwf : cacheWF m c) :
    ∃ c', (r.get m (some c)).cache = some c' ∧ cacheWF m c' := by
  by_cases hd : r._discovery = []
  · exact ⟨c, by simp [Resources.get, hd], hwf⟩
  · obtain ⟨c', h1, h2⟩ := discover_WF m r._discovery c hwf
    exact ⟨c', by simp [Resources.get, hd, h1], h2⟩

/-- Events an iteration of the inner polling loop can add besides the
discoverer invocations: the skip notice, one `get_samples` call on the
blacklist-filtered targets, and one publication. -/
theorem countUrlCalls_zero_of (url : String) (l : List Event)
    (h : ∀ u, Event.discoverCall u ∉ l) : countUrlCalls url l = 0 := by
  induction l with
  | nil => rfl
  | cons e rest ih =>
    have hrest : ∀ u, Event.discoverCall u ∉ rest := by
      intro u hu; exact h u (List.mem_cons.mpr (Or.inr hu))
    cases e with
    | discoverCall u => exact absurd (List.mem_cons.mpr (Or.inl rfl)) (h u)
    | getSamplesCall s n ts => simpa [countUrlCalls] using ih hrest
    | published s n ss => simpa [countUrlCalls] using ih hrest
    | skipped s n => simpa [countUrlCalls] using ih hrest

/-- Decomposition of one inner-loop iteration (`pollOne`): its events are
the old events, then the discoverer invocations of the default-discovery
resolution and the source resolution, then a tail of pollster-local events;
its cache is the one threaded through the two resolutions; its resources
map is unchanged except possibly for one blacklist append on this pairing's
key. -/
theorem pollOne_decomp (m : AgentManager) (env : PollEnv) (src : String)
    (p : Pollster) (st : CycleState) :
    ∃ tail,
      (pollOne m env src p st).events
        = st.events
          ++ (pollsterDefaultRes m p st.dcache).calls.map Event.discoverCall
          ++ (sourceRes m st.resources src p
                ((pollsterDefaultRes m p st.dcache).cache.getD st.dcache)).calls.map
              Event.discoverCall
          ++ tail
      ∧ (∀ e ∈ tail, e = Event.skipped src p.name
           ∨ (∃ ts, e = Event.getSamplesCall src p.name ts
                ∧ ts = targetsOf m st.resources src p st.dcache ∧ ts ≠ [])
           ∨ (∃ ss, e = Event.published src p.name ss))
      ∧ (Event.skipped src p.name ∈ tail
          ∨ ∃ ts, Event.getSamplesCall src p.name ts ∈ tail)
      ∧ (pollOne m env src p st).dcache
          = (sourceRes m st.resources src p
                ((pollsterDefaultRes m p st.dcache).cache.getD st.dcache)).cache.getD
              ((pollsterDefaultRes m p st.dcache).cache.getD st.dcache)
      ∧ ((pollOne m env src p st).resources = st.resources
          ∨ ∃ fr, (pollOne m env src p st).resources
              = assocUpd (Resources.key src p) Resources.empty
                  (fun r => { r with blacklist := r.blacklist ++ [fr] })
                  st.resources) := by
  by_cases hempty : targetsOf m st.resources src p st.dcache = []
  · refine ⟨[Event.skipped src p.name], ?_, ?_, Or.inl (by simp), ?_, Or.inl ?_⟩
    · simp [pollOne, hempty, List.append_assoc]
    · intro e he
      simp at he
      exact Or.inl he
    · simp [pollOne, hempty]
    · simp [pollOne, hempty]
  · rcases henv : env p.name (targetsOf m st.resources src p st.dcache) with
      samples | fr | _
    · refine ⟨[Event.getSamplesCall src p.name
          (targetsOf m st.resources src p st.dcache),
        Event.published src p.name samples], ?_, ?_,
        Or.inr ⟨targetsOf m st.resources src p st.dcache, by simp⟩, ?_,
        Or.inl ?_⟩
      · simp [pollOne, hempty, henv, List.append_assoc]
      · intro e he
        simp at he
        rcases he with he | he
        · exact Or.inr (Or.inl ⟨_, he, rfl, hempty⟩)
        · exact Or.inr (Or.inr ⟨_, he⟩)
      · simp [pollOne, hempty, henv]
      · simp [pollOne, hempty, henv]
    · refine ⟨[Event.getSamplesCall src p.name
          (targetsOf m st.resources src p st.dcache)], ?_, ?_,
        Or.inr ⟨targetsOf m st.resources src p st.dcache, by simp⟩, ?_,
        Or.inr ⟨fr, ?_⟩⟩
      · simp [pollOne, hempty, henv, List.append_assoc]
      · intro e he
        simp at he
        exact Or.inr (Or.inl ⟨_, he, rfl, hempty⟩)
      · simp [pollOne, hempty, henv]
      · simp [pollOne, hempty, henv]
    · refine ⟨[Event.getSamplesCall src p.name
          (targetsOf m st.resources src p st.dcache)], ?_, ?_,
        Or.inr ⟨targetsOf m st.resources src p st.dcache, by simp⟩, ?_,
        Or.inl ?_⟩
      · simp [pollOne, hempty, henv, List.append_assoc]
      · intro e he
        simp at he
        exact Or.inr (Or.inl ⟨_, he, rfl, hempty⟩)
      · simp [pollOne, hempty, henv]
      · simp [pollOne, hempty, henv]

theorem pollOne_InvU (m : AgentManager) (env : PollEnv) (src : String)
    (p : Pollster) (url : String) (v : List Resource)
    (hgood : partitionOf m url = some v) (st : CycleState)
    (hinv : InvU url v st) : InvU url v (pollOne m env src p st) := by
  obtain ⟨tail, hev, htail, _, hdc, _⟩ := pollOne_decomp m env src p st
  obtain ⟨c₁, hc₁, hcount₁, hiff₁, hval₁⟩ :=
    discover_good m url v hgood (defaultDiscoveryList p) st.dcache
  have hc₁' : (pollsterDefaultRes m p st.dcache).cache.getD st.dcache = c₁ := by
    simp [pollsterDefaultRes, hc₁]
  obtain ⟨c₂, hc₂, hcount₂, hiff₂, hval₂⟩ :=
    get_good m (resOf st.resources (Resources.key src p)) url v hgood c₁
  have hdc' : (pollOne m env src p st).dcache = c₂ := by
    rw [hdc, hc₁']
    simp [sourceRes, hc₂]
  have htail0 : countUrlCalls url tail = 0 := by
    apply countUrlCalls_zero_of
    intro u hu
    rcases htail _ hu with h | ⟨ts, h, _, _⟩ | ⟨ss, h⟩ <;> simp at h
  constructor
  · intro w hw
    rw [hdc'] at hw
    rcases hval₂ w hw with h | h
    · rcases hval₁ w h with h2 | h2
      · exact hinv.1 w h2
      · exact h2
    · exact h
  · rw [hev, hdc']
    rw [countUrlCalls_append, countUrlCalls_append, countUrlCalls_append,
        countUrlCalls_map, countUrlCalls_map, htail0]
    have e1 : countUrl url (pollsterDefaultRes m p st.dcache).calls
        = (if (cacheLookup st.dcache url).isSome then 0
           else if url ∈ defaultDiscoveryList p then 1 else 0) := hcount₁
    have e2 : countUrl url (sourceRes m st.resources src p
          ((pollsterDefaultRes m p st.dcache).cache.getD st.dcache)).calls
        = (if (cacheLookup c₁ url).isSome then 0
           else if url ∈ (resOf st.resources
               (Resources.key src p))._discovery then 1 else 0) := by
      rw [hc₁']; exact hcount₂
    rw [e1, e2, hinv.2]
    by_cases hA : (cacheLookup st.dcache url).isSome
    · have h1 : (cacheLookup c₁ url).isSome := hiff₁.mpr (Or.inl hA)
      have h2 : (cacheLookup c₂ url).isSome := hiff₂.mpr (Or.inl h1)
      simp [hA, h1, h2]
    · by_cases hB : url ∈ defaultDiscoveryList p
      · have h1 : (cacheLookup c₁ url).isSome := hiff₁.mpr (Or.inr hB)
        have h2 : (cacheLookup c₂ url).isSome := hiff₂.mpr (Or.inl h1)
        simp [hA, hB, h1, h2]
      · have h1 : ¬(cacheLookup c₁ url).isSome := by
          intro hx
          rcases hiff₁.mp hx with h | h
          · exact hA h
          · exact hB h
        by_cases hC : url ∈ (resOf st.resources
            (Resources.key src p))._discovery
        · have h2 : (cacheLookup c₂ url).isSome := hiff₂.mpr (Or.inr hC)
          simp [hA, hB, h1, h2, hC]
        · have h2 : ¬(cacheLookup c₂ url).isSome := by
            intro hx
            rcases hiff₂.mp hx with h | h
            · exact h1 h
            · exact hC h
          simp [hA, hB, h1, h2, hC]

theorem pollSource_InvU (m : AgentManager) (env : PollEnv)
    (entry : String × List Pollster) (url : String) (v : List Resource)
    (hgood : partitionOf m url = some v) (st : CycleState)
    (hinv : InvU url v st) : InvU url v (pollSource m env st entry) :=
  foldl_preserve
    (fun s p hs => pollOne_InvU m env entry.1 p url v hgood s hs)
    entry.2 st hinv

theorem poll_cycle_InvU (t : PollingTask) (m : AgentManager) (env : PollEnv)
    (url : String) (v : List Resource) (hgood : partitionOf m url = some v) :
    InvU url v (poll_cycle t m env) := by
  have h0 : InvU url v ⟨t.resources, [], []⟩ := by
    constructor
    · intro w hw; simp [cacheLookup] at hw
    · simp [countUrlCalls, cacheLookup]
  exact foldl_preserve
    (fun s e hs => pollSource_InvU m env e url v hgood s hs)
    t.pollster_matches _ h0

/-- The cachedness of a successfully-resolvable URL after one inner-loop
iteration: it stays cached, and it becomes cached when this iteration's
pollster references it (through its default discovery or through the
pairing's discovery URL list). -/
theorem pollOne_cached (m : AgentManager) (env : PollEnv) (src : String)
    (p : Pollster) (url : String) (v : List Resource)
    (hgood : partitionOf m url = some v) (st : CycleState)
    (h : (cacheLookup st.dcache url).isSome
         ∨ url ∈ defaultDiscoveryList p
         ∨ url ∈ (resOf st.resources (Resources.key src p))._discovery) :
    (cacheLookup (pollOne m env src p st).dcache url).isSome := by
  obtain ⟨_, _, _, _, hdc, _⟩ := pollOne_decomp m env src p st
  obtain ⟨c₁, hc₁, _, hiff₁, _⟩ :=
    discover_good m url v hgood (defaultDiscoveryList p) st.dcache
  have hc₁' : (pollsterDefaultRes m p st.dcache).cache.getD st.dcache = c₁ := by
    simp [pollsterDefaultRes, hc₁]
  obtain ⟨c₂, hc₂, _, hiff₂, _⟩ :=
    get_good m (resOf st.resources (Resources.key src p)) url v hgood c₁
  have hdc' : (pollOne m env src p st).dcache = c₂ := by
    rw [hdc, hc₁']
    simp [sourceRes, hc₂]
  rw [hdc']
  rcases h with h | h | h
  · exact hiff₂.mpr (Or.inl (hiff₁.mpr (Or.inl h)))
  · exact hiff₂.mpr (Or.inl (hiff₁.mpr (Or.inr h)))
  · exact hiff₂.mpr (Or.inr h)

/-- The `_resources`/`_discovery` fields of every pairing's `Resources`
entry are unchanged by one inner-loop iteration (only a blacklist may be
appended to). -/
theorem pollOne_fields (m : AgentManager) (env : PollEnv) (src : String)
    (p : Pollster) (st : CycleState) (k : String) :
    (resOf (pollOne m env src p st).resources k)._discovery
        = (resOf st.resources k)._discovery
    ∧ (resOf (pollOne m env src p st).resources k)._resources
        = (resOf st.resources k)._resources := by
  obtain ⟨_, _, _, _, _, hres⟩ := pollOne_decomp m env src p st
  rcases hres with h | ⟨fr, h⟩
  · rw [h]; exact ⟨rfl, rfl⟩
  · rw [h]
    by_cases hk : k = Resources.key src p
    · subst hk; rw [resOf_upd_self]; exact ⟨rfl, rfl⟩
    · rw [resOf_upd_ne _ _ _ _ hk]; exact ⟨rfl, rfl⟩

/-- Blacklists only ever grow during one inner-loop iteration. -/
theorem pollOne_blacklist_grow (m : AgentManager) (env : PollEnv)
    (src : String) (p : Pollster) (st : CycleState) (k : String) :
    ∃ tl, (resOf (pollOne m env src p st).resources k).blacklist
        = (resOf st.resources k).blacklist ++ tl := by
  obtain ⟨_, _, _, _, _, hres⟩ := pollOne_decomp m env src p st
  rcases hres with h | ⟨fr, h⟩
  · rw [h]; exact ⟨[], by simp⟩
  · rw [h]
    by_cases hk : k = Resources.key src p
    · subst hk; rw [resOf_upd_self]; exact ⟨[fr], rfl⟩
    · rw [resOf_upd_ne _ _ _ _ hk]; exact ⟨[], by simp⟩

/-- Events only ever grow during one inner-loop iteration. -/
theorem pollOne_events_mono (m : AgentManager) (env : PollEnv) (src : String)
    (p : Pollster) (st : CycleState) :
    ∃ tl, (pollOne m env src p st).events = st.events ++ tl := by
  obtain ⟨tail, hev, _, _, _, _⟩ := pollOne_decomp m env src p st
  exact ⟨List.map Event.discoverCall (pollsterDefaultRes m p st.dcache).calls
      ++ (List.map Event.discoverCall (sourceRes m st.resources src p
            ((pollsterDefaultRes m p st.dcache).cache.getD st.dcache)).calls
          ++ tail),
    by rw [hev]; simp [List.append_assoc]⟩

theorem foldl_reach_inv {σ α : Type} {f : σ → α → σ} {I P : σ → Prop}
    (hIpres : ∀ s a, I s → I (f s a))
    (hPpres : ∀ s a, P s → P (f s a))
    (a : α) (hstep : ∀ s, I s → P (f s a)) :
    ∀ (l : List α) (s : σ), I s → a ∈ l → P (l.foldl f s) := by
  intro l
  induction l with
  | nil => intro s _ hmem; cases hmem
  | cons b l ih =>
    intro s hI hmem
    rcases List.mem_cons.mp hmem with h1 | h1
    · subst h1
      exact foldl_preserve hPpres l (f s a) (hstep s hI)
    · exact ih (f s b) (hIpres s b hI) h1

theorem pollOne_stable (t : PollingTask) (m : AgentManager) (env : PollEnv)
    (src : String) (p : Pollster) (st : CycleState)
    (h : ∀ k, (resOf st.resources k)._discovery
        = (resOf t.resources k)._discovery) :
    ∀ k, (resOf (pollOne m env src p st).resources k)._discovery
        = (resOf t.resources k)._discovery :=
  fun k => ((pollOne_fields m env src p st k).1).trans (h k)

/-- A URL whose uncached processing succeeds is cached at the end of any
cycle of a task that references it. -/
theorem poll_cycle_cached (t : PollingTask) (m : AgentManager) (env : PollEnv)
    (url : String) (v : List Resource) (hgood : partitionOf m url = some v)
    (href : referencesURL t url) :
    (cacheLookup (poll_cycle t m env).dcache url).isSome := by
  obtain ⟨src, ps, hmem, p, hp, hpref⟩ := href
  have hIpres : ∀ (s : CycleState) (e : String × List Pollster),
      (∀ k, (resOf s.resources k)._discovery = (resOf t.resources k)._discovery)
      → ∀ k, (resOf (pollSource m env s e).resources k)._discovery
          = (resOf t.resources k)._discovery :=
    fun s e hs =>
      foldl_preserve (fun s' p' hs' => pollOne_stable t m env e.1 p' s' hs')
        e.2 s hs
  have hPpres : ∀ (s : CycleState) (e : String × List Pollster),
      (cacheLookup s.dcache url).isSome
      → (cacheLookup (pollSource m env s e).dcache url).isSome :=
    fun s e hs =>
      foldl_preserve
        (fun s' p' hs' =>
          pollOne_cached m env e.1 p' url v hgood s' (Or.inl hs'))
        e.2 s hs
  have hstep : ∀ (s : CycleState),
      (∀ k, (resOf s.resources k)._discovery = (resOf t.resources k)._discovery)
      → (cacheLookup (pollSource m env s (src, ps)).dcache url).isSome := by
    intro s hI
    apply foldl_reach_inv
      (I := fun s' => ∀ k, (resOf s'.resources k)._discovery
          = (resOf t.resources k)._discovery)
      (fun s' p' hs' => pollOne_stable t m env src p' s' hs')
      (fun s' p' hs' =>
        pollOne_cached m env src p' url v hgood s' (Or.inl hs'))
      p _ ps s hI hp
    intro s' hI'
    apply pollOne_cached m env src p url v hgood s'
    rcases hpref with h | h
    · exact Or.inr (Or.inl h)
    · refine Or.inr (Or.inr ?_)
      rw [hI' (Resources.key src p)]
      exact h
  exact foldl_reach_inv hIpres hPpres (src, ps) hstep t.pollster_matches
    ⟨t.resources, [], []⟩ (fun k => rfl) hmem

theorem pollOne_WF (m : AgentManager) (env : PollEnv) (src : String)
    (p : Pollster) (st : CycleState) (h : cacheWF m st.dcache) :
    cacheWF m (pollOne m env src p st).dcache := by
  obtain ⟨_, _, _, _, hdc, _⟩ := pollOne_decomp m env src p st
  obtain ⟨c₁, hc₁, hwf₁⟩ := discover_WF m (defaultDiscoveryList p) st.dcache h
  have hc₁' : (pollsterDefaultRes m p st.dcache).cache.getD st.dcache = c₁ := by
    simp [pollsterDefaultRes, hc₁]
  obtain ⟨c₂, hc₂, hwf₂⟩ :=
    get_WF m (resOf st.resources (Resources.key src p)) c₁ hwf₁
  have hdc' : (pollOne m env src p st).dcache = c₂ := by
    rw [hdc, hc₁']
    simp [sourceRes, hc₂]
  rw [hdc']
  exact hwf₂

theorem poll_cycle_WF (t : PollingTask) (m : AgentManager) (env : PollEnv) :
    cacheWF m (poll_cycle t m env).dcache := by
  have h0 : cacheWF m (CycleState.mk t.resources [] []).dcache := by
    intro u w hw
    simp [cacheLookup] at hw
  exact foldl_preserve
    (fun s e hs =>
      foldl_preserve (fun s' p' hs' => pollOne_WF m env e.1 p' s' hs')
        e.2 s hs)
    t.pollster_matches _ h0

theorem blacklist_filter_excl (r : Resource) (bl : List Resource)
    (l : List Resource) (h : r ∈ bl) :
    r ∉ l.filter (fun x => decide (x ∉ bl)) := by
  intro hmem
  rcases List.mem_filter.mp hmem with ⟨_, hdec⟩
  simp at hdec
  exact hdec h

theorem pollOne_no_bad (m : AgentManager) (env : PollEnv) (src : String)
    (p : Pollster) (st : CycleState) (src0 pname : String) (r : Resource)
    (hbl : r ∈ (resOf st.resources (src0 ++ "-" ++ pname)).blacklist) :
    ∀ ts, Event.getSamplesCall src0 pname ts ∈ (pollOne m env src p st).events
      → Event.getSamplesCall src0 pname ts ∈ st.events ∨ r ∉ ts := by
  obtain ⟨tail, hev, htail, _, _, _⟩ := pollOne_decomp m env src p st
  intro ts hmem
  rw [hev] at hmem
  rcases List.mem_append.mp hmem with hmem2 | htl
  · rcases List.mem_append.mp hmem2 with hmem3 | h2
    · rcases List.mem_append.mp hmem3 with h0 | h1
      · exact Or.inl h0
      · rcases List.mem_map.mp h1 with ⟨u, _, hu⟩
        simp at hu
    · rcases List.mem_map.mp h2 with ⟨u, _, hu⟩
      simp at hu
  · rcases htail _ htl with h | ⟨ts', hEq, hts', hne⟩ | ⟨ss, hEq⟩
    · simp at h
    · have h3 : src0 = src ∧ pname = p.name ∧ ts = ts' := by
        simpa using hEq
      obtain ⟨hsrc, hname, hts⟩ := h3
      right
      rw [hts, hts']
      have hkey : Resources.key src p = src0 ++ "-" ++ pname := by
        rw [hsrc, hname]; rfl
      unfold targetsOf
      rw [hkey]
      exact blacklist_filter_excl r _ _ hbl
    · simp at hEq

theorem pollOne_noBadInv (m : AgentManager) (env : PollEnv) (src : String)
    (p : Pollster) (src0 pname : String) (r : Resource) (st : CycleState)
    (h : noBadInv src0 pname r st) :
    noBadInv src0 pname r (pollOne m env src p st) := by
  obtain ⟨tl, htl⟩ :=
    pollOne_blacklist_grow m env src p st (src0 ++ "-" ++ pname)
  refine ⟨by rw [htl]; exact List.mem_append.mpr (Or.inl h.1), ?_⟩
  intro ts hmem
  rcases pollOne_no_bad m env src p st src0 pname r h.1 ts hmem with h2 | h2
  · exact h.2 ts h2
  · exact h2

theorem pollSource_noBadInv (m : AgentManager) (env : PollEnv)
    (entry : String × List Pollster) (src0 pname : String) (r : Resource)
    (st : CycleState) (h : noBadInv src0 pname r st) :
    noBadInv src0 pname r (pollSource m env st entry) :=
  foldl_preserve
    (fun s p hs => pollOne_noBadInv m env entry.1 p src0 pname r s hs)
    entry.2 st h

theorem poll_cycle_noBad (t : PollingTask) (m : AgentManager) (env : PollEnv)
    (src0 pname : String) (r : Resource)
    (hbl : r ∈ (resOf t.resources (src0 ++ "-" ++ pname)).blacklist) :
    noBadInv src0 pname r (poll_cycle t m env) := by
  have h0 : noBadInv src0 pname r ⟨t.resources, [], []⟩ := by
    refine ⟨hbl, ?_⟩
    intro ts hmem
    simp at hmem
  exact foldl_preserve
    (fun s e hs => pollSource_noBadInv m env e src0 pname r s hs)
    t.pollster_matches _ h0

theorem blGrow_trans (a b c : CycleState) (h1 : blGrow a b)
    (h2 : blGrow b c) : blGrow a c := by
  intro k
  obtain ⟨t1, e1⟩ := h1 k
  obtain ⟨t2, e2⟩ := h2 k
  exact ⟨t1 ++ t2, by rw [e2, e1, List.append_assoc]⟩

theorem blGrow_refl (a : CycleState) : blGrow a a :=
  fun k => ⟨[], by simp⟩

theorem pollOne_blGrow (m : AgentManager) (env : PollEnv) (src : String)
    (p : Pollster) (st : CycleState) : blGrow st (pollOne m env src p st) :=
  fun k => pollOne_blacklist_grow m env src p st k

theorem pollSource_blGrow (m : AgentManager) (env : PollEnv)
    (st : CycleState) (entry : String × List Pollster) :
    blGrow st (pollSource m env st entry) :=
  foldl_chain blGrow_trans blGrow_refl
    (fun s p => pollOne_blGrow m env entry.1 p s) entry.2 st

theorem poll_cycle_blGrow (t : PollingTask) (m : AgentManager)
    (env : PollEnv) :
    blGrow ⟨t.resources, [], []⟩ (poll_cycle t m env) :=
  foldl_chain blGrow_trans blGrow_refl
    (fun s e => pollSource_blGrow m env s e)
    t.pollster_matches ⟨t.resources, [], []⟩

theorem processedP_mono (src pname : String) (st st' : CycleState)
    (h : ∃ tl, st'.events = st.events ++ tl)
    (hp : processedP src pname st) : processedP src pname st' := by
  obtain ⟨tl, htl⟩ := h
  rcases hp with h1 | ⟨ts, h1⟩
  · exact Or.inl (by rw [htl]; exact List.mem_append.mpr (Or.inl h1))
  · exact Or.inr ⟨ts, by rw [htl]; exact List.mem_append.mpr (Or.inl h1)⟩

theorem pollOne_processed (m : AgentManager) (env : PollEnv) (src : String)
    (p : Pollster) (st : CycleState) :
    processedP src p.name (pollOne m env src p st) := by
  obtain ⟨tail, hev, _, hproc, _, _⟩ := pollOne_decomp m env src p st
  rcases hproc with h | ⟨ts, h⟩
  · exact Or.inl (by rw [hev]; exact List.mem_append.mpr (Or.inr h))
  · exact Or.inr ⟨ts, by rw [hev]; exact List.mem_append.mpr (Or.inr h)⟩

/-- Every registered pairing is processed in every cycle (either skipped or
polled) — no pollster's failure prevents later pollsters from running. -/
theorem poll_cycle_processed (t : PollingTask) (m : AgentManager)
    (env : PollEnv) (src : String) (p : Pollster) (ps : List Pollster)
    (hmem : (src, ps) ∈ t.pollster_matches) (hp : p ∈ ps) :
    processedP src p.name (poll_cycle t m env) := by
  have hpres : ∀ (s : CycleState) (e : String × List Pollster),
      processedP src p.name s → processedP src p.name (pollSource m env s e) :=
    fun s e hs =>
      foldl_preserve
        (fun s' p' hs' =>
          processedP_mono src p.name s' _
            (pollOne_events_mono m env e.1 p' s') hs')
        e.2 s hs
  have hstep : ∀ (s : CycleState),
      processedP src p.name (pollSource m env s (src, ps)) := by
    intro s
    apply foldl_reach
      (fun s' p' hs' =>
        processedP_mono src p.name s' _
          (pollOne_events_mono m env src p' s') hs')
      p (fun s' => pollOne_processed m env src p s') ps s hp
  exact foldl_reach hpres (src, ps) hstep t.pollster_matches
    ⟨t.resources, [], []⟩ hmem

theorem mem_events_decomp (base : List Event) (l1 l2 : List String)
    (tail : List Event) (e : Event) (he : ∀ u, e ≠ Event.discoverCall u)
    (hmem : e ∈ base ++ l1.map Event.discoverCall
        ++ l2.map Event.discoverCall ++ tail) :
    e ∈ base ∨ e ∈ tail := by
  rcases List.mem_append.mp hmem with h | h
  · rcases List.mem_append.mp h with h2 | h2
    · rcases List.mem_append.mp h2 with h3 | h3
      · exact Or.inl h3
      · rcases List.mem_map.mp h3 with ⟨u, _, hu⟩
        exact absurd hu.symm (he u)
    · rcases List.mem_map.mp h2 with ⟨u, _, hu⟩
      exact absurd hu.symm (he u)
  · exact Or.inr h

theorem hash_of_set_perm (l l' : List String) (h : l.Perm l') :
    hash_of_set l = hash_of_set l' := by
  unfold hash_of_set
  congr 1
  refine List.eq_of_perm_of_sorted ?_ (List.sorted_insertionSort _ _)
    (List.sorted_insertionSort _ _)
  exact (List.perm_insertionSort _ _).trans
    (h.dedup.trans (List.perm_insertionSort _ _).symm)

theorem assocUpd_keys {α : Type} (k : String) (d : α) (f : α → α)
    (l : List (String × α)) :
    (assocUpd k d f l).map Prod.fst
      = if k ∈ l.map Prod.fst then l.map Prod.fst
        else l.map Prod.fst ++ [k] := by
  induction l with
  | nil => simp [assocUpd]
  | cons hd tl ih =>
    obtain ⟨k1, v⟩ := hd
    by_cases h1 : k1 = k
    · subst h1; simp [assocUpd]
    · simp only [assocUpd, h1, if_false, List.map_cons, List.mem_cons]
      rw [ih]
      by_cases h2 : k ∈ tl.map Prod.fst
      · simp [h2, Ne.symm h1]
      · simp [h2, Ne.symm h1]

theorem nodup_assocUpd {α : Type} (k : String) (d : α) (f : α → α)
    (l : List (String × α)) (h : (l.map Prod.fst).Nodup) :
    ((assocUpd k d f l).map Prod.fst).Nodup := by
  rw [assocUpd_keys]
  by_cases h2 : k ∈ l.map Prod.fst
  · simpa [h2] using h
  · simp [h2, List.nodup_append, h]

/-- C4: `Resources.get` with a discovery cache returns exactly the
concatenation of the coordinator-partitioned static resources (keyed by a
group id derived from the order-independent `hash_of_set` of the static
list) followed by the discovered resources, with no deduplication between
the two; the hash is invariant under permutation of the static list. -/
theorem c4_resource_resolution (m : AgentManager) (r : Resources)
    (c : DiscoveryCache) :
    (r.get m (some c)).resources = staticPart m r ++ discoveredPart m r c
    ∧ (∀ l l' : List String, l.Perm l' → hash_of_set l = hash_of_set l') := by
  constructor
  · by_cases hd : r._discovery = [] <;> by_cases hr : r._resources = [] <;>
      simp [Resources.get, staticPart, discoveredPart, hd, hr]
  · exact fun l l' h => hash_of_set_perm l l' h

/-- Witness for C4 at a concrete resource set, cache and permutation. -/
theorem c4_resource_resolution_witness :
    List.Perm ["a", "b"] ["b", "a"]
    ∧ ((Resources.mk ["r2", "r1"] ["d://x"] []).get mOkDisc
          (some [])).resources
        = staticPart mOkDisc (Resources.mk ["r2", "r1"] ["d://x"] [])
          ++ discoveredPart mOkDisc (Resources.mk ["r2", "r1"] ["d://x"] []) []
    ∧ hash_of_set ["a", "b"] = hash_of_set ["b", "a"] :=
  ⟨by decide,
   (c4_resource_resolution mOkDisc (Resources.mk ["r2", "r1"] ["d://x"] []) []).1,
   (c4_resource_resolution mOkDisc (Resources.mk ["r2", "r1"] ["d://x"] []) []).2
     ["a", "b"] ["b", "a"] (by decide)⟩

/-- C5: in every cycle, the candidate list handed onwards equals the
source's resolved resources when those are non-empty and otherwise the
pollster's default-discovery resources — Python's `or` on the two lists
agrees with the spec's conditional (the default discovery is resolved
first, the source resources on the updated cache). -/
theorem c5_candidate_priority (m : AgentManager)
    (resmap : List (String × Resources)) (src : String) (p : Pollster)
    (c : DiscoveryCache) :
    candidatesOf m resmap src p c
      = spec_candidates
          (sourceRes m resmap src p
            ((pollsterDefaultRes m p c).cache.getD c)).resources
          (pollsterDefaultRes m p c).resources := by
  unfold candidatesOf spec_candidates
  by_cases h : (sourceRes m resmap src p
      ((pollsterDefaultRes m p c).cache.getD c)).resources = [] <;> simp [h]

/-- C6: when the blacklist-filtered target list of a pollster is empty, the
iteration leaves the task state unchanged, records the informational skip,
invokes no `get_samples` and hands nothing to the publish batch (and, being
a total function of the state, raises nothing). -/
theorem c6_empty_target_skip (m : AgentManager) (env : PollEnv) (src : String)
    (p : Pollster) (st : CycleState)
    (hts : targetsOf m st.resources src p st.dcache = []) :
    (pollOne m env src p st).resources = st.resources
    ∧ Event.skipped src p.name ∈ (pollOne m env src p st).events
    ∧ (∀ s' n' ts,
        Event.getSamplesCall s' n' ts ∈ (pollOne m env src p st).events
        → Event.getSamplesCall s' n' ts ∈ st.events)
    ∧ (∀ s' n' ss, Event.published s' n' ss ∈ (pollOne m env src p st).events
        → Event.published s' n' ss ∈ st.events) := by
  have hev : (pollOne m env src p st).events
      = st.events
        ++ (pollsterDefaultRes m p st.dcache).calls.map Event.discoverCall
        ++ (sourceRes m st.resources src p
              ((pollsterDefaultRes m p st.dcache).cache.getD
                st.dcache)).calls.map Event.discoverCall
        ++ [Event.skipped src p.name] := by
    simp [pollOne, hts, List.append_assoc]
  refine ⟨by simp [pollOne, hts], ?_, ?_, ?_⟩
  · rw [hev]; simp
  · intro s' n' ts hmem
    rw [hev] at hmem
    rcases mem_events_decomp _ _ _ _ _ (by simp) hmem with h | h
    · exact h
    · simp at h
  · intro s' n' ss hmem
    rw [hev] at hmem
    rcases mem_events_decomp _ _ _ _ _ (by simp) hmem with h | h
    · exact h
    · simp at h

/-- Witness for C6: the only candidate resource is blacklisted, so the
pollster is skipped and state is unchanged. -/
theorem c6_empty_target_skip_witness :
    targetsOf mNone stBlk.resources "s" pW stBlk.dcache = []
    ∧ (pollOne mNone envOk "s" pW stBlk).resources = stBlk.resources
    ∧ Event.skipped "s" pW.name ∈ (pollOne mNone envOk "s" pW stBlk).events :=
  ⟨by decide,
   (c6_empty_target_skip mNone envOk "s" pW stBlk (by decide)).1,
   (c6_empty_target_skip mNone envOk "s" pW stBlk (by decide)).2.1⟩

/-- C7: when `get_samples` raises `PollsterPermanentError{fr}`, the
iteration appends exactly `fr` to this pairing's blacklist, leaves every
other pairing untouched, hands nothing to the publish batch, the task keeps
its pollster registrations, and every registered pairing of any task is
still processed in a full cycle under this environment. -/
theorem c7_permanent_error (m : AgentManager) (env : PollEnv) (src : String)
    (p : Pollster) (st : CycleState) (fr : Resource)
    (hts : targetsOf m st.resources src p st.dcache ≠ [])
    (henv : env p.name (targetsOf m st.resources src p st.dcache)
        = SampleResult.permanentError fr) :
    (resOf (pollOne m env src p st).resources (Resources.key src p)).blacklist
        = (resOf st.resources (Resources.key src p)).blacklist ++ [fr]
    ∧ (∀ k, k ≠ Resources.key src p →
        resOf (pollOne m env src p st).resources k = resOf st.resources k)
    ∧ (∀ s' n' ss, Event.published s' n' ss ∈ (pollOne m env src p st).events
        → Event.published s' n' ss ∈ st.events)
    ∧ (∀ t : PollingTask,
        (t.poll_and_publish m env).1.pollster_matches = t.pollster_matches)
    ∧ (∀ (t : PollingTask) (src' : String) (ps : List Pollster)
        (p' : Pollster), (src', ps) ∈ t.pollster_matches → p' ∈ ps →
        processedP src' p'.name (poll_cycle t m env)) := by
  have hres : (pollOne m env src p st).resources
      = assocUpd (Resources.key src p) Resources.empty
          (fun r => { r with blacklist := r.blacklist ++ [fr] })
          st.resources := by
    simp [pollOne, hts, henv]
  have hev : (pollOne m env src p st).events
      = st.events
        ++ (pollsterDefaultRes m p st.dcache).calls.map Event.discoverCall
        ++ (sourceRes m st.resources src p
              ((pollsterDefaultRes m p st.dcache).cache.getD
                st.dcache)).calls.map Event.discoverCall
        ++ [Event.getSamplesCall src p.name
              (targetsOf m st.resources src p st.dcache)] := by
    simp [pollOne, hts, henv, List.append_assoc]
  refine ⟨?_, ?_, ?_, fun t => rfl,
    fun t src' ps p' h1 h2 => poll_cycle_processed t m env src' p' ps h1 h2⟩
  · rw [hres, resOf_upd_self]
  · intro k hk
    rw [hres, resOf_upd_ne _ _ _ _ hk]
  · intro s' n' ss hmem
    rw [hev] at hmem
    rcases mem_events_decomp _ _ _ _ _ (by simp) hmem with h | h
    · exact h
    · simp at h

/-- Witness for C7: one static resource, a permanently failing pollster. -/
theorem c7_permanent_error_witness :
    targetsOf mNone stC7.resources "s" pW stC7.dcache ≠ []
    ∧ envPerm pW.name (targetsOf mNone stC7.resources "s" pW stC7.dcache)
        = SampleResult.permanentError "r1"
    ∧ (resOf (pollOne mNone envPerm "s" pW stC7).resources
          (Resources.key "s" pW)).blacklist
        = (resOf stC7.resources (Resources.key "s" pW)).blacklist ++ ["r1"] :=
  ⟨by decide, by decide,
   (c7_permanent_error mNone envPerm "s" pW stC7 "r1"
     (by decide) (by decide)).1⟩

/-- C8: when `get_samples` raises any error other than
`PollsterPermanentError`, the iteration catches it, changes no task state
(no blacklist changes), hands nothing to the publish batch, the task keeps
its pollster registrations, and every registered pairing of any task is
still processed in a full cycle under this environment (nothing propagates
out of `poll_and_publish`, which is total). -/
theorem c8_transient_error (m : AgentManager) (env : PollEnv) (src : String)
    (p : Pollster) (st : CycleState)
    (hts : targetsOf m st.resources src p st.dcache ≠ [])
    (henv : env p.name (targetsOf m st.resources src p st.dcache)
        = SampleResult.otherError) :
    (pollOne m env src p st).resources = st.resources
    ∧ (∀ s' n' ss, Event.published s' n' ss ∈ (pollOne m env src p st).events
        → Event.published s' n' ss ∈ st.events)
    ∧ (∀ t : PollingTask,
        (t.poll_and_publish m env).1.pollster_matches = t.pollster_matches)
    ∧ (∀ (t : PollingTask) (src' : String) (ps : List Pollster)
        (p' : Pollster), (src', ps) ∈ t.pollster_matches → p' ∈ ps →
        processedP src' p'.name (poll_cycle t m env)) := by
  have hev : (pollOne m env src p st).events
      = st.events
        ++ (pollsterDefaultRes m p st.dcache).calls.map Event.discoverCall
        ++ (sourceRes m st.resources src p
              ((pollsterDefaultRes m p st.dcache).cache.getD
                st.dcache)).calls.map Event.discoverCall
        ++ [Event.getSamplesCall src p.name
              (targetsOf m st.resources src p st.dcache)] := by
    simp [pollOne, hts, henv, List.append_assoc]
  refine ⟨by simp [pollOne, hts, henv], ?_, fun t => rfl,
    fun t src' ps p' h1 h2 => poll_cycle_processed t m env src' p' ps h1 h2⟩
  intro s' n' ss hmem
  rw [hev] at hmem
  rcases mem_events_decomp _ _ _ _ _ (by simp) hmem with h | h
  · exact h
  · simp at h

/-- Witness for C8: one static resource, a transiently failing pollster. -/
theorem c8_transient_error_witness :
    targetsOf mNone stC7.resources "s" pW stC7.dcache ≠ []
    ∧ envErr pW.name (targetsOf mNone stC7.resources "s" pW stC7.dcache)
        = SampleResult.otherError
    ∧ (pollOne mNone envErr "s" pW stC7).resources = stC7.resources :=
  ⟨by decide, by decide,
   (c8_transient_error mNone envErr "s" pW stC7 (by decide) (by decide)).1⟩

/-- C9: constructing an `AgentManager` with a non-empty pollster list while
a coordination backend URL is configured raises `PollsterListForbidden`,
whatever the extension loader would return — so no extensions are loaded on
that path. -/
theorem c9_pollster_list_forbidden (backend_url : Option String)
    (namespaces pollster_list : List String)
    (hpl : pollster_list ≠ []) (hurl : truthyOpt backend_url = true) :
    ∀ (load_ext : String → List Pollster)
      (match_pat : String → String → Bool),
      agent_manager_init backend_url namespaces pollster_list load_ext
          match_pat
        = InitOutcome.forbidden := by
  intro le mp
  simp [agent_manager_init, hpl, hurl]

/-- Witness for C9 at a concrete configuration. -/
theorem c9_pollster_list_forbidden_witness :
    (["cpu*"] : List String) ≠ []
    ∧ truthyOpt (some "zookeeper://host") = true
    ∧ agent_manager_init (some "zookeeper://host") ["central"] ["cpu*"]
        (fun _ => [pW]) (fun _ _ => true)
      = InitOutcome.forbidden :=
  ⟨by decide, by decide,
   c9_pollster_list_forbidden (some "zookeeper://host") ["central"] ["cpu*"]
     (by decide) (by decide) (fun _ => [pW]) (fun _ _ => true)⟩

theorem poll_cycle_blacklist (t : PollingTask) (m : AgentManager)
    (env : PollEnv) (k : String) :
    ∃ tl, (resOf (poll_cycle t m env).resources k).blacklist
        = (resOf t.resources k).blacklist ++ tl := by
  have h := poll_cycle_blGrow t m env k
  simpa using h

/-- C1: once a resource is in a pairing's blacklist, every later
`poll_and_publish` cycle (under arbitrary per-cycle sampling behaviour)
excludes it from that pairing's `get_samples` targets; the resource stays
blacklisted, and no pairing's blacklist ever shrinks (entries are only
appended, never removed). -/
theorem c1_blacklist_monotonic (t : PollingTask) (m : AgentManager)
    (envs : List PollEnv) (src : String) (p : Pollster) (r : Resource)
    (hbl : r ∈ (resOf t.resources (Resources.key src p)).blacklist) :
    (∀ ts, Event.getSamplesCall src p.name ts ∈ (runCycles t m envs).2
        → r ∉ ts)
    ∧ r ∈ (resOf (runCycles t m envs).1.resources
          (Resources.key src p)).blacklist
    ∧ (∀ k, ∃ tl, (resOf (runCycles t m envs).1.resources k).blacklist
        = (resOf t.resources k).blacklist ++ tl) := by
  induction envs generalizing t with
  | nil =>
    refine ⟨?_, hbl, fun k => ⟨[], by simp [runCycles]⟩⟩
    intro ts hmem
    simp [runCycles] at hmem
  | cons e rest ih =>
    have hnb := poll_cycle_noBad t m e src p.name r hbl
    have hre : (t.poll_and_publish m e).1.resources
        = (poll_cycle t m e).resources := rfl
    have hbl1 : r ∈ (resOf ((t.poll_and_publish m e).1).resources
        (Resources.key src p)).blacklist := by
      rw [hre]; exact hnb.1
    obtain ⟨ih1, ih2, ih3⟩ := ih ((t.poll_and_publish m e).1) hbl1
    have h2 : (runCycles t m (e :: rest)).2
        = (t.poll_and_publish m e).2
          ++ (runCycles ((t.poll_and_publish m e).1) m rest).2 := rfl
    have h1 : (runCycles t m (e :: rest)).1
        = (runCycles ((t.poll_and_publish m e).1) m rest).1 := rfl
    refine ⟨?_, ?_, ?_⟩
    · intro ts hmem
      rw [h2] at hmem
      rcases List.mem_append.mp hmem with h | h
      · exact hnb.2 ts h
      · exact ih1 ts h
    · rw [h1]; exact ih2
    · intro k
      obtain ⟨t2, e2⟩ := ih3 k
      obtain ⟨t1, e1⟩ := poll_cycle_blacklist t m e k
      rw [h1]
      refine ⟨t1 ++ t2, ?_⟩
      calc (resOf (runCycles ((t.poll_and_publish m e).1) m rest).1.resources
              k).blacklist
          = (resOf ((t.poll_and_publish m e).1).resources k).blacklist ++ t2 :=
            e2
        _ = (resOf (poll_cycle t m e).resources k).blacklist ++ t2 := by
            rw [hre]
        _ = ((resOf t.resources k).blacklist ++ t1) ++ t2 := by rw [e1]
        _ = (resOf t.resources k).blacklist ++ (t1 ++ t2) :=
            List.append_assoc _ _ _

/-- Witness for C1: a blacklisted resource survives a cycle. -/
theorem c1_blacklist_monotonic_witness :
    "r1" ∈ (resOf tBl.resources (Resources.key "s" pW)).blacklist
    ∧ "r1" ∈ (resOf (runCycles tBl mNone [envOk]).1.resources
          (Resources.key "s" pW)).blacklist :=
  ⟨by decide,
   (c1_blacklist_monotonic tBl mNone [envOk] "s" pW "r1" (by decide)).2.1⟩

/-- Counterexample to C2 as stated: `d://x` is referenced by two pairings,
but its discoverer's invocation raises, nothing is cached, and the
discoverer is invoked twice in one `poll_and_publish` cycle — not exactly
once. -/
theorem c2_counterexample :
    (∃ ps, ("s1", ps) ∈ tTwo.pollster_matches ∧ pW ∈ ps
        ∧ "d://x" ∈ (resOf tTwo.resources (Resources.key "s1" pW))._discovery)
    ∧ (∃ ps, ("s2", ps) ∈ tTwo.pollster_matches ∧ pW ∈ ps
        ∧ "d://x" ∈ (resOf tTwo.resources (Resources.key "s2" pW))._discovery)
    ∧ countUrlCalls "d://x" (poll_cycle tTwo mFail envErr).events = 2 :=
  ⟨⟨[pW], by decide, by decide, by decide⟩,
   ⟨[pW], by decide, by decide, by decide⟩, by decide⟩

/-- C2 (amended): for every discovery URL referenced by the task whose
uncached processing succeeds (its discoverer exists and its invocation does
not raise), the underlying discoverer is invoked exactly once per
`poll_and_publish` cycle, later references being served from the per-cycle
cache; a URL whose invocation raises is not cached and is re-invoked at
each later reference. -/
theorem c2_discovery_memoized (t : PollingTask) (m : AgentManager)
    (env : PollEnv) (url : String) (v : List Resource)
    (hgood : partitionOf m url = some v) (href : referencesURL t url) :
    countUrlCalls url (poll_cycle t m env).events = 1 := by
  have hinv := poll_cycle_InvU t m env url v hgood
  have hc := poll_cycle_cached t m env url v hgood href
  rw [hinv.2, if_pos hc]

/-- Witness for C2 (amended): a succeeding discoverer referenced by two
pairings is invoked exactly once. -/
theorem c2_discovery_memoized_witness :
    partitionOf mOkDisc "d://x" = some ["r1"]
    ∧ referencesURL tTwo "d://x"
    ∧ countUrlCalls "d://x" (poll_cycle tTwo mOkDisc envErr).events = 1 :=
  ⟨by decide, ⟨"s1", [pW], by decide, pW, by decide, Or.inr (by decide)⟩,
   c2_discovery_memoized tTwo mOkDisc envErr "d://x" ["r1"] (by decide)
     ⟨"s1", [pW], by decide, pW, by decide, Or.inr (by decide)⟩⟩

/-- Counterexample to C3: the pairing key joins names with `-`, which is
not injective — the distinct combinations `("a-b", "c")` and `("a", "b-c")`
share the key `"a-b-c"`, so after registering both the task holds a single
shared `Resources` entry (holding the later registration's data) rather
than two distinct ones. -/
theorem c3_counterexample :
    ("a-b", pKeyA.name) ≠ ("a", pKeyB.name)
    ∧ Resources.key "a-b" pKeyA = Resources.key "a" pKeyB
    ∧ tKey.resources = [("a-b-c", ⟨["r2"], [], []⟩)] :=
  ⟨by decide, by decide, by decide⟩

/-- C3 (amended): within one task the joined string
`sourceName-pollsterName` identifies at most one `Resources` entry (no
duplicate keys arise from any sequence of `add`s), and registrations under
distinct joined keys are independent — an `add` leaves every other key's
entry unchanged and sets its own key's entry by `setup` on the latest
pipeline.  Distinct combinations share an entry exactly when their joined
keys collide. -/
theorem c3_pairing_key (l : List (Pollster × Pipeline)) (t : PollingTask)
    (p : Pollster) (pip : Pipeline) (k : String)
    (hk : k ≠ Resources.key pip.source.name p) :
    ((buildTask l).resources.map Prod.fst).Nodup
    ∧ resOf (t.add p pip).resources k = resOf t.resources k
    ∧ resOf (t.add p pip).resources (Resources.key pip.source.name p)
        = (resOf t.resources (Resources.key pip.source.name p)).setup pip := by
  have hadd : (t.add p pip).resources
      = assocUpd (Resources.key pip.source.name p) Resources.empty
          (fun r => r.setup pip) t.resources := rfl
  refine ⟨?_, ?_, ?_⟩
  · have hstep : ∀ (t0 : PollingTask) (pp : Pollster × Pipeline),
        (t0.resources.map Prod.fst).Nodup →
        (((t0.add pp.1 pp.2)).resources.map Prod.fst).Nodup :=
      fun t0 pp h0 =>
        nodup_assocUpd _ Resources.empty _ t0.resources h0
    exact foldl_preserve hstep l PollingTask.empty (by simp [PollingTask.empty])
  · rw [hadd]
    exact resOf_upd_ne _ _ _ _ hk
  · rw [hadd, resOf_upd_self]

/-- Witness for C3 (amended) at concrete registrations and a distinct
key. -/
theorem c3_pairing_key_witness :
    ("z" ≠ Resources.key "a" pKeyB)
    ∧ ((buildTask [(pKeyA, Pipeline.mk ⟨"a-b"⟩ ["r1"] [])]).resources.map
        Prod.fst).Nodup
    ∧ resOf (tKey.add pKeyB (Pipeline.mk ⟨"a"⟩ ["r2"] [])).resources "z"
        = resOf tKey.resources "z" :=
  ⟨by decide,
   (c3_pairing_key [(pKeyA, Pipeline.mk ⟨"a-b"⟩ ["r1"] [])] tKey pKeyB
     (Pipeline.mk ⟨"a"⟩ ["r2"] []) "z" (by decide)).1,
   (c3_pairing_key [(pKeyA, Pipeline.mk ⟨"a-b"⟩ ["r1"] [])] tKey pKeyB
     (Pipeline.mk ⟨"a"⟩ ["r2"] []) "z" (by decide)).2.1⟩

/-- C10: every value stored in the per-cycle discovery cache is the
already-partitioned subset its URL's processing produces; for a
successfully-resolvable URL the stored value is exactly that subset, the
discoverer runs at most once per cycle, and any later `discover`
consumption of a cached URL returns exactly the stored list, performs no
invocation and leaves the cache unchanged. -/
theorem c10_cache_post_partition (t : PollingTask) (m : AgentManager)
    (env : PollEnv) (url : String) (v : List Resource)
    (hgood : partitionOf m url = some v) :
    cacheWF m (poll_cycle t m env).dcache
    ∧ (∀ w, cacheLookup (poll_cycle t m env).dcache url = some w → w = v)
    ∧ countUrlCalls url (poll_cycle t m env).events ≤ 1
    ∧ (∀ (c : DiscoveryCache) (w : List Resource),
        cacheLookup c url = some w
        → m.discover [url] (some c) = ⟨w, some c, []⟩) := by
  have hinv := poll_cycle_InvU t m env url v hgood
  refine ⟨poll_cycle_WF t m env, hinv.1, ?_, ?_⟩
  · rw [hinv.2]
    by_cases h : (cacheLookup (poll_cycle t m env).dcache url).isSome <;>
      simp [h]
  · intro c w hw
    simp [AgentManager.discover, discoverStep, hw]

/-- Witness for C10: the cached value of a succeeding discoverer's URL is
its partitioned output. -/
theorem c10_cache_post_partition_witness :
    partitionOf mOkDisc "d://x" = some ["r1"]
    ∧ (∀ w, cacheLookup (poll_cycle tTwo mOkDisc envErr).dcache "d://x"
          = some w → w = ["r1"]) :=
  ⟨by decide,
   (c10_cache_post_partition tTwo mOkDisc envErr "d://x" ["r1"]
     (by decide)).2.1⟩

end Ceilometer
